import Mathlib

/-!
Verification development for the vectorized Top-N operator
(`BatchTopNExecutor` in `components/tidb_query_executors/src/top_n_executor.rs`).

The executor's state machine (`next_batch`, `handle_next_batch`,
`process_batch_input`, `check_supported`) is embedded from the source.
The bounded heap (`TopNHeap`) and the row comparator live in
`util::top_n_heap`, which is outside the supplied sources; those parts are
modelled from the specification and are marked as such in their doc comments.
Machine integers are carried as their 64-bit patterns (`Nat` below `2 ^ 64`);
fallible operations return `Except`.
-/

namespace TopN

/-- Drain state of one batch result (`BatchExecIsDrain` in the source). -/
inductive BatchExecIsDrain where
  | Remain
  | Drain
deriving DecidableEq

/-- Whether the pipeline stops after this state (`BatchExecIsDrain::stop`). -/
def BatchExecIsDrain.stop : BatchExecIsDrain → Bool
  | .Drain => true
  | .Remain => false

/-- Modelled from the spec: the scalar values appearing in columns and in
evaluated sort keys.  `vnull` is the missing/NULL value; `vint` carries the
underlying 64-bit pattern of an integer; floating point is modelled by the
rationals as a total-order stand-in (the spec requires the comparator to be a
total preorder); byte strings are byte lists. -/
inductive SortVal where
  | vnull
  | vint (bits : Nat)
  | vreal (q : ℚ)
  | vbytes (bs : List Nat)
deriving DecidableEq, Inhabited

/-- Three-way comparison on `Nat` (64-bit patterns read as unsigned). -/
def cmpNat (a b : Nat) : Ordering :=
  if a < b then .lt else if b < a then .gt else .eq

/-- Three-way comparison on `Int`. -/
def cmpInt (a b : Int) : Ordering :=
  if a < b then .lt else if b < a then .gt else .eq

/-- Three-way comparison on `ℚ`. -/
def cmpRat (a b : ℚ) : Ordering :=
  if a < b then .lt else if b < a then .gt else .eq

/-- Lexicographic three-way comparison of byte strings (binary collation). -/
def cmpBytes : List Nat → List Nat → Ordering
  | [], [] => .eq
  | [], _ :: _ => .lt
  | _ :: _, [] => .gt
  | a :: as, b :: bs =>
    match cmpNat a b with
    | .eq => cmpBytes as bs
    | o => o

/-- Reinterpret a 64-bit pattern as a signed two's-complement integer. -/
def toSigned (bits : Nat) : Int :=
  if bits < 2 ^ 63 then (bits : Int) else (bits : Int) - 2 ^ 64

/-- The part of an ORDER BY result field type the comparator depends on:
whether the column carries the UNSIGNED flag. -/
structure FieldTypeMeta where
  unsigned : Bool
deriving DecidableEq

/-- Modelled from the spec: compare two evaluated key values under one key's
field type.  A missing value compares as the minimum; unsigned-flagged
integers compare by their 64-bit patterns read as unsigned, signed ones by the
patterns read as two's-complement. -/
def cmpValue (ft : FieldTypeMeta) : SortVal → SortVal → Ordering
  | .vnull, .vnull => .eq
  | .vnull, _ => .lt
  | _, .vnull => .gt
  | .vint a, .vint b =>
    if ft.unsigned then cmpNat a b else cmpInt (toSigned a) (toSigned b)
  | .vreal a, .vreal b => cmpRat a b
  | .vbytes a, .vbytes b => cmpBytes a b
  | _, _ => .eq

/-- Modelled from the spec: the multi-key, direction-aware row comparator
(`cmp_sort_key` in `util::top_n_heap`, outside the supplied sources).  Keys
are visited in declared order; a non-tie result is inverted when the key is
descending and returned, ties continue to the next key. -/
def cmp_sort_key : List FieldTypeMeta → List Bool → List SortVal → List SortVal → Ordering
  | [], _, _, _ => .eq
  | _ :: _, [], _, _ => .eq
  | ft :: fts, d :: ds, as, bs =>
    let natural := cmpValue ft (as.headD .vnull) (bs.headD .vnull)
    match (if d then natural.swap else natural) with
    | .eq => cmp_sort_key fts ds as.tail bs.tail
    | o => o

/-- `a` does not sort strictly after `b` (better-first order, non-strict). -/
def keyLe (fts : List FieldTypeMeta) (ds : List Bool) (a b : List SortVal) : Bool :=
  cmp_sort_key fts ds a b != Ordering.gt

theorem cmpNat_swap (a b : Nat) : cmpNat a b = (cmpNat b a).swap := by
  simp only [cmpNat]
  by_cases h1 : a < b <;> by_cases h2 : b < a
  · exact absurd h2 (not_lt.mpr h1.le)
  all_goals simp [h1, h2, Ordering.swap]

theorem cmpInt_swap (a b : Int) : cmpInt a b = (cmpInt b a).swap := by
  simp only [cmpInt]
  by_cases h1 : a < b <;> by_cases h2 : b < a
  · exact absurd h2 (not_lt.mpr h1.le)
  all_goals simp [h1, h2, Ordering.swap]

theorem cmpRat_swap (a b : ℚ) : cmpRat a b = (cmpRat b a).swap := by
  simp only [cmpRat]
  by_cases h1 : a < b <;> by_cases h2 : b < a
  · exact absurd h2 (not_lt.mpr h1.le)
  all_goals simp [h1, h2, Ordering.swap]

theorem cmpBytes_swap (a b : List Nat) : cmpBytes a b = (cmpBytes b a).swap := by
  induction a generalizing b with
  | nil => cases b <;> rfl
  | cons x xs ih =>
    cases b with
    | nil => rfl
    | cons y ys =>
      simp only [cmpBytes, cmpNat_swap x y]
      cases cmpNat y x <;> simp [Ordering.swap, ih]

theorem cmpValue_swap (ft : FieldTypeMeta) (a b : SortVal) :
    cmpValue ft a b = (cmpValue ft b a).swap := by
  cases a <;> cases b <;> simp only [cmpValue] <;> try rfl
  · split_ifs
    · exact cmpNat_swap _ _
    · exact cmpInt_swap _ _
  · exact cmpRat_swap _ _
  · exact cmpBytes_swap _ _

theorem cmp_sort_key_swap (fts : List FieldTypeMeta) (ds : List Bool)
    (a b : List SortVal) : cmp_sort_key fts ds a b = (cmp_sort_key fts ds b a).swap := by
  induction fts generalizing ds a b with
  | nil => rfl
  | cons ft fts ih =>
    cases ds with
    | nil => rfl
    | cons d ds =>
      simp only [cmp_sort_key, cmpValue_swap ft (a.headD .vnull) (b.headD .vnull)]
      cases cmpValue ft (b.headD .vnull) (a.headD .vnull) <;> cases d <;>
        first
          | exact ih ds a.tail b.tail
          | rfl

theorem keyLe_total (fts : List FieldTypeMeta) (ds : List Bool) (a b : List SortVal) :
    keyLe fts ds a b = true ∨ keyLe fts ds b a = true := by
  have hs := cmp_sort_key_swap fts ds a b
  simp only [keyLe]
  cases h : cmp_sort_key fts ds a b <;> rw [h] at hs
  · exact Or.inl rfl
  · exact Or.inl rfl
  · cases h2 : cmp_sort_key fts ds b a <;> rw [h2] at hs
    · exact Or.inr rfl
    · exact absurd hs (by decide)
    · exact absurd hs (by decide)

/-- One candidate output row retained by the heap: the materialized data of its
physical row plus its evaluated sort-key tuple.  (`HeapItemUnsafe` in the
source instead holds a shared handle to the batch plus a logical row index;
the spec's §9 re-architecture makes the row's data and key explicit.) -/
structure HeapRow where
  data : List SortVal
  key : List SortVal
deriving DecidableEq, Inhabited

/-- Modelled from the spec: the worst surviving row of a nonempty heap, i.e.
a maximum in the better-first order — the eviction candidate. -/
def worstRow (fts : List FieldTypeMeta) (ds : List Bool) (r : HeapRow)
    (rest : List HeapRow) : HeapRow :=
  rest.foldl (fun w x => if cmp_sort_key fts ds x.key w.key = .gt then x else w) r

/-- Modelled from the spec: `TopNHeap::add_row` (in `util::top_n_heap`,
outside the supplied sources).  Below capacity the row is inserted
unconditionally; at capacity the row replaces the current worst row iff it is
strictly better, otherwise it is discarded. -/
def add_row (fts : List FieldTypeMeta) (ds : List Bool) (n : Nat)
    (heap : List HeapRow) (row : HeapRow) : List HeapRow :=
  if heap.length < n then row :: heap
  else
    match heap with
    | [] => []
    | r :: rest =>
      if cmp_sort_key fts ds row.key (worstRow fts ds r rest).key = .lt then
        row :: (r :: rest).erase (worstRow fts ds r rest)
      else r :: rest

/-- Modelled from the spec: insert a row into a list that is sorted in
better-first order, keeping it sorted. -/
def insertSorted (fts : List FieldTypeMeta) (ds : List Bool) (x : HeapRow) :
    List HeapRow → List HeapRow
  | [] => [x]
  | y :: ys =>
    if keyLe fts ds x.key y.key then x :: y :: ys
    else y :: insertSorted fts ds x ys

/-- Modelled from the spec: `TopNHeap::take_all` drains the heap and returns
the retained rows sorted in better-first order (called once, at
end-of-stream). -/
def take_all (fts : List FieldTypeMeta) (ds : List Bool)
    (heap : List HeapRow) : List HeapRow :=
  heap.foldr (insertSorted fts ds) []

/-- A chunk of columnar data: the physical columns (`LazyBatchColumnVec` in
the source; columns are modelled already decoded). -/
structure LazyBatchColumnVec where
  columns : List (List SortVal)
deriving DecidableEq

/-- `LazyBatchColumnVec::empty`: a vector with no columns. -/
def LazyBatchColumnVec.empty : LazyBatchColumnVec := ⟨[]⟩

/-- `LazyBatchColumnVec::rows_len`: the number of physical rows (the length
of the first column; 0 when there are no columns). -/
def LazyBatchColumnVec.rows_len (v : LazyBatchColumnVec) : Nat :=
  (v.columns.headD []).length

instance exceptDecEq {ε α : Type} [DecidableEq ε] [DecidableEq α] :
    DecidableEq (Except ε α) := fun a b =>
  match a, b with
  | .error e, .error f =>
    if h : e = f then .isTrue (by rw [h])
    else .isFalse (by intro hc; cases hc; exact h rfl)
  | .error _, .ok _ => .isFalse (by intro hc; cases hc)
  | .ok _, .error _ => .isFalse (by intro hc; cases hc)
  | .ok x, .ok y =>
    if h : x = y then .isTrue (by rw [h])
    else .isFalse (by intro hc; cases hc; exact h rfl)

/-- The result of one `next_batch` call (`BatchExecuteResult` in the source).
Warnings are opaque tokens; errors are opaque codes. -/
structure BatchExecuteResult where
  physical_columns : LazyBatchColumnVec
  logical_rows : List Nat
  warnings : List Nat
  is_drained : Except Nat BatchExecIsDrain
deriving DecidableEq

/-- An executable ORDER BY expression is an external collaborator; it is
modelled as a function from a physical data row to an evaluated value or an
evaluation error. -/
def OrderExpr : Type := List SortVal → Except Nat SortVal

/-- `BatchTopNExecutor`: the pull-based Top-N state machine.  The upstream
source is modelled as a script of pulls, each mapping the scan-rows hint to a
batch result; `schema_len` stands for `src.schema().len()`; `paging_size`
stands for `context.cfg.paging_size`. -/
structure BatchTopNExecutor where
  heap : List HeapRow
  order_exprs : List OrderExpr
  order_exprs_field_type : List FieldTypeMeta
  order_is_desc : List Bool
  n : Nat
  paging_size : Option Nat
  schema_len : Nat
  src : List (Nat → BatchExecuteResult)
  is_ended : Bool

/-- The internal large fixed batch size used for source pulls
(`BATCH_MAX_SIZE` in the source's interface module). -/
def BATCH_MAX_SIZE : Nat := 1024

/-- Pull once from the scripted source.  The source contract forbids pulling
again after a drain, so an exhausted script yields an empty drained batch. -/
def pullSrc (src : List (Nat → BatchExecuteResult)) (scan_rows : Nat) :
    BatchExecuteResult × List (Nat → BatchExecuteResult) :=
  match src with
  | [] => ({ physical_columns := .empty, logical_rows := [], warnings := [],
             is_drained := .ok .Drain }, [])
  | f :: rest => (f scan_rows, rest)

/-- The physical data row at index `i`: the value of every physical column at
that index (missing positions read as NULL). -/
def rowAt (cols : LazyBatchColumnVec) (i : Nat) : List SortVal :=
  cols.columns.map (fun c => c.getD i .vnull)

/-- Evaluate `f` over a list, stopping at the first error. -/
def exceptMap {α β : Type} (f : α → Except Nat β) : List α → Except Nat (List β)
  | [] => .ok []
  | a :: as =>
    match f a with
    | .error e => .error e
    | .ok b =>
      match exceptMap f as with
      | .error e => .error e
      | .ok bs => .ok (b :: bs)

/-- Evaluate every ORDER BY expression across the batch's logical rows,
producing one sort-key column per expression, aligned with `logical_rows`
(`eval_exprs_decoded_no_lifetime` in the source; a failure aborts). -/
def evalOrderColumns (exprs : List OrderExpr) (cols : LazyBatchColumnVec)
    (logical_rows : List Nat) : Except Nat (List (List SortVal)) :=
  exceptMap (fun ex => exceptMap (fun li => ex (rowAt cols li)) logical_rows) exprs

/-- `BatchTopNExecutor::process_batch_input`: evaluate the sort keys over the
incoming batch, then push one heap row per logical row into the heap. -/
def process_batch_input (fts : List FieldTypeMeta) (ds : List Bool)
    (exprs : List OrderExpr) (n : Nat) (heap : List HeapRow)
    (physical_columns : LazyBatchColumnVec) (logical_rows : List Nat) :
    Except Nat (List HeapRow) :=
  match evalOrderColumns exprs physical_columns logical_rows with
  | .error e => .error e
  | .ok keyCols =>
    let rows := (List.range logical_rows.length).map (fun i =>
      ({ data := rowAt physical_columns (logical_rows.getD i 0),
         key := keyCols.map (fun c => c.getD i .vnull) } : HeapRow))
    .ok (rows.foldl (add_row fts ds n) heap)

/-- The outcome of `handle_next_batch`: the drained/not-drained/error
verdict, the surviving heap, the advanced source, and the warnings merged
from the source pull. -/
structure HandleResult where
  out : Except Nat (Option (List HeapRow))
  heap : List HeapRow
  src : List (Nat → BatchExecuteResult)
  warnings : List Nat

/-- `BatchTopNExecutor::handle_next_batch`: pull exactly one batch from the
source with `BATCH_MAX_SIZE`, merge its warnings, propagate a source error,
feed any visible rows through `process_batch_input`, and on source drain
return the heap's sorted contents. -/
def handle_next_batch (e : BatchTopNExecutor) : HandleResult :=
  match (pullSrc e.src BATCH_MAX_SIZE).1.is_drained with
  | .error err =>
    ⟨.error err, e.heap, (pullSrc e.src BATCH_MAX_SIZE).2,
     (pullSrc e.src BATCH_MAX_SIZE).1.warnings⟩
  | .ok src_is_drained =>
    match (if (pullSrc e.src BATCH_MAX_SIZE).1.logical_rows.isEmpty then .ok e.heap
           else process_batch_input e.order_exprs_field_type e.order_is_desc
                  e.order_exprs e.n e.heap
                  (pullSrc e.src BATCH_MAX_SIZE).1.physical_columns
                  (pullSrc e.src BATCH_MAX_SIZE).1.logical_rows) with
    | .error err =>
      ⟨.error err, e.heap, (pullSrc e.src BATCH_MAX_SIZE).2,
       (pullSrc e.src BATCH_MAX_SIZE).1.warnings⟩
    | .ok heap' =>
      if src_is_drained.stop then
        ⟨.ok (some (take_all e.order_exprs_field_type e.order_is_desc heap')),
         [], (pullSrc e.src BATCH_MAX_SIZE).2,
         (pullSrc e.src BATCH_MAX_SIZE).1.warnings⟩
      else
        ⟨.ok none, heap', (pullSrc e.src BATCH_MAX_SIZE).2,
         (pullSrc e.src BATCH_MAX_SIZE).1.warnings⟩

/-- Modelled from the spec: build the output batch's physical columns from
the sorted survivor rows — one column per schema slot (the output batch
assembly lives in `util::top_n_heap`, outside the supplied sources). -/
def assembleColumns (schema_len : Nat) (rows : List HeapRow) : LazyBatchColumnVec :=
  ⟨(List.range schema_len).map (fun c => rows.map (fun r => r.data.getD c .vnull))⟩

/-- Whether this call takes the paging bypass: a configured paging size that
`n` strictly exceeds. -/
def pagingBypass (e : BatchTopNExecutor) : Bool :=
  match e.paging_size with
  | some paging_size => decide (paging_size < e.n)
  | none => false

/-- `BatchTopNExecutor::next_batch`: the zero-limit fast path, the paging
bypass, and otherwise one `handle_next_batch` step whose verdict is turned
into an error / final sorted output / empty remain result. -/
def next_batch (e : BatchTopNExecutor) (scan_rows : Nat) :
    BatchExecuteResult × BatchTopNExecutor :=
  if e.n = 0 then
    ({ physical_columns := .empty, logical_rows := [], warnings := [],
       is_drained := .ok .Drain }, { e with is_ended := true })
  else if pagingBypass e then
    ((pullSrc e.src scan_rows).1, { e with src := (pullSrc e.src scan_rows).2 })
  else
    match (handle_next_batch e).out with
    | .error err =>
      ({ physical_columns := .empty, logical_rows := [],
         warnings := (handle_next_batch e).warnings, is_drained := .error err },
       { e with
          is_ended := true
          heap := (handle_next_batch e).heap
          src := (handle_next_batch e).src })
    | .ok (some sorted_rows) =>
      ({ physical_columns := assembleColumns e.schema_len sorted_rows,
         logical_rows := List.range (assembleColumns e.schema_len sorted_rows).rows_len,
         warnings := (handle_next_batch e).warnings, is_drained := .ok .Drain },
       { e with
          is_ended := true
          heap := (handle_next_batch e).heap
          src := (handle_next_batch e).src })
    | .ok none =>
      ({ physical_columns := .empty, logical_rows := [],
         warnings := (handle_next_batch e).warnings, is_drained := .ok .Remain },
       { e with
          heap := (handle_next_batch e).heap
          src := (handle_next_batch e).src })

/-- Whether the caller must stop pulling after this result. -/
def stops (r : BatchExecuteResult) : Bool :=
  match r.is_drained with
  | .ok d => d.stop
  | .error _ => true

/-- Drive the executor like a caller: call `next_batch` repeatedly until a
stopping result (drain or error), collecting the returned batches. -/
def runExec : Nat → BatchTopNExecutor → Nat → List BatchExecuteResult
  | 0, _, _ => []
  | fuel + 1, e, hint =>
    if e.is_ended then []
    else if stops (next_batch e hint).1 then [(next_batch e hint).1]
    else (next_batch e hint).1 :: runExec fuel (next_batch e hint).2 hint

/-- Drive the bare source directly with the same caller protocol. -/
def runSrc : Nat → List (Nat → BatchExecuteResult) → Nat → List BatchExecuteResult
  | 0, _, _ => []
  | fuel + 1, src, hint =>
    if stops (pullSrc src hint).1 then [(pullSrc src hint).1]
    else (pullSrc src hint).1 :: runSrc fuel (pullSrc src hint).2 hint

/-- A hint-independent scripted source delivering the given batch results. -/
def constSrc (rs : List BatchExecuteResult) : List (Nat → BatchExecuteResult) :=
  rs.map (fun r _ => r)

/-- The total number of visible (logical) rows across a list of batches. -/
def totalLogicalRows (rs : List BatchExecuteResult) : Nat :=
  (rs.map (fun r => r.logical_rows.length)).sum

/-- `BatchTopNExecutor::check_supported`: the pushdown descriptor must have a
nonempty ORDER BY list and every ORDER BY expression tree must pass the batch
expression builder's check (the builder is an external collaborator, passed
as `check`). -/
def check_all {α : Type} (check : α → Except Nat Unit) : List α → Except Nat Unit
  | [] => .ok ()
  | a :: as =>
    match check a with
    | .error e => .error e
    | .ok _ => check_all check as

/-- `BatchTopNExecutor::check_supported` itself (error code 0 models the
"Missing Top N column" error). -/
def check_supported {α : Type} (check : α → Except Nat Unit) (order_by : List α) :
    Except Nat Unit :=
  if order_by.isEmpty then .error 0
  else check_all check order_by

/-- Every adjacent pair of rows stands in non-strict better-first order. -/
def adjacentlySorted (fts : List FieldTypeMeta) (ds : List Bool) :
    List HeapRow → Bool
  | [] => true
  | [_] => true
  | a :: b :: rest =>
    keyLe fts ds a.key b.key && adjacentlySorted fts ds (b :: rest)

/-- Whether a heap row's first sort-key value is NULL. -/
def isNullKey (r : HeapRow) : Bool :=
  match r.key.headD .vnull with
  | .vnull => true
  | _ => false

/-- Every ORDER BY expression evaluates successfully on every row. -/
def EvalOk (exprs : List OrderExpr) : Prop :=
  ∀ ex ∈ exprs, ∀ row, ∃ v, ex row = Except.ok v

/-- The source delivers a finite stream of successful batches: every batch
before the last reports `Remain`, and the last reports `Drain`. -/
def DrainShaped : List BatchExecuteResult → Prop
  | [] => False
  | [r] => r.is_drained = .ok .Drain
  | r :: s :: rest => r.is_drained = .ok .Remain ∧ DrainShaped (s :: rest)

/-- A concrete ORDER BY expression used in concrete runs: the first output
column, evaluated without failure. -/
def exprCol0 : OrderExpr := fun row => .ok (row.headD .vnull)

/-- A concrete drained source batch (one int column, two visible rows). -/
def wBatchDrain : BatchExecuteResult :=
  { physical_columns := ⟨[[.vint 5, .vint 1]]⟩, logical_rows := [0, 1],
    warnings := [], is_drained := .ok .Drain }

/-- A concrete `Remain` source batch. -/
def wBatchRemain : BatchExecuteResult :=
  { physical_columns := ⟨[[.vint 7]]⟩, logical_rows := [0],
    warnings := [], is_drained := .ok .Remain }

/-- A concrete source batch whose drain status carries an error. -/
def wBatchErr : BatchExecuteResult :=
  { physical_columns := ⟨[[.vint 7]]⟩, logical_rows := [0],
    warnings := [], is_drained := .error 42 }

/-- A concrete Top-N executor over a single drained batch, one ascending
signed key, N = 2. -/
def wExec : BatchTopNExecutor :=
  { heap := [], order_exprs := [exprCol0], order_exprs_field_type := [⟨false⟩],
    order_is_desc := [false], n := 2, paging_size := none, schema_len := 1,
    src := constSrc [wBatchDrain], is_ended := false }

/-- A concrete executor whose input contains a NULL key value. -/
def wExecNull : BatchTopNExecutor :=
  { heap := [], order_exprs := [exprCol0], order_exprs_field_type := [⟨false⟩],
    order_is_desc := [false], n := 5, paging_size := none, schema_len := 1,
    src := constSrc [{ physical_columns := ⟨[[.vint 5, .vnull, .vint 3]]⟩,
                       logical_rows := [0, 1, 2], warnings := [],
                       is_drained := .ok .Drain }],
    is_ended := false }

/-- Like `wExecNull` but with a descending key. -/
def wExecNullDesc : BatchTopNExecutor :=
  { wExecNull with order_is_desc := [true] }

/-- The concrete unsigned-key executor exercised by the unsigned-comparison
claim: one unsigned ascending key over the 64-bit patterns of 2^64-1 (signed
-1) and 2^63-1 (signed maximum). -/
def unsignedExec : BatchTopNExecutor :=
  { heap := [], order_exprs := [exprCol0], order_exprs_field_type := [⟨true⟩],
    order_is_desc := [false], n := 2, paging_size := none, schema_len := 1,
    src := constSrc
      [{ physical_columns :=
           ⟨[[.vint 18446744073709551615, .vint 9223372036854775807]]⟩,
         logical_rows := [0, 1], warnings := [], is_drained := .ok .Drain }],
    is_ended := false }

theorem worstRow_mem (fts : List FieldTypeMeta) (ds : List Bool) (r : HeapRow)
    (rest : List HeapRow) : worstRow fts ds r rest ∈ r :: rest := by
  induction rest generalizing r with
  | nil => simp [worstRow]
  | cons x xs ih =>
    have hw : worstRow fts ds r (x :: xs)
        = worstRow fts ds (if cmp_sort_key fts ds x.key r.key = .gt then x else r) xs := rfl
    rw [hw]
    rcases List.mem_cons.mp
        (ih (if cmp_sort_key fts ds x.key r.key = .gt then x else r)) with h1 | h1
    · rw [h1]
      split_ifs <;> simp
    · simp [h1]

theorem length_add_row (fts : List FieldTypeMeta) (ds : List Bool) (n : Nat)
    (heap : List HeapRow) (row : HeapRow) :
    (add_row fts ds n heap row).length
      = if heap.length < n then heap.length + 1 else heap.length := by
  by_cases h : heap.length < n
  · simp [add_row, h]
  · rw [if_neg h]
    cases heap with
    | nil =>
      have hred : add_row fts ds n [] row = [] := by
        unfold add_row
        rw [if_neg h]
      rw [hred]
    | cons r rest =>
      have hred : add_row fts ds n (r :: rest) row
          = if cmp_sort_key fts ds row.key (worstRow fts ds r rest).key = .lt then
              row :: (r :: rest).erase (worstRow fts ds r rest)
            else r :: rest := by
        unfold add_row
        rw [if_neg h]
      rw [hred]
      by_cases hc : cmp_sort_key fts ds row.key (worstRow fts ds r rest).key = .lt
      · rw [if_pos hc, List.length_cons,
          List.length_erase_of_mem (worstRow_mem fts ds r rest)]
        simp
      · rw [if_neg hc]

theorem length_foldl_add_row (fts : List FieldTypeMeta) (ds : List Bool) (n : Nat) :
    ∀ (rows : List HeapRow) (heap : List HeapRow), heap.length ≤ n →
      (rows.foldl (add_row fts ds n) heap).length = min n (heap.length + rows.length) := by
  intro rows
  induction rows with
  | nil => intro heap h; simp; omega
  | cons r rs ih =>
    intro heap h
    have hl := length_add_row fts ds n heap r
    have h2 : (add_row fts ds n heap r).length ≤ n := by
      rw [hl]; split_ifs <;> omega
    rw [List.foldl_cons, ih _ h2, hl]
    split_ifs <;> simp <;> omega

theorem length_insertSorted (fts : List FieldTypeMeta) (ds : List Bool)
    (x : HeapRow) (l : List HeapRow) :
    (insertSorted fts ds x l).length = l.length + 1 := by
  induction l with
  | nil => rfl
  | cons y ys ih =>
    simp only [insertSorted]
    split_ifs <;> simp [ih]

theorem length_take_all (fts : List FieldTypeMeta) (ds : List Bool)
    (heap : List HeapRow) : (take_all fts ds heap).length = heap.length := by
  induction heap with
  | nil => rfl
  | cons r rest ih =>
    simp only [take_all, List.foldr_cons] at *
    rw [length_insertSorted, ih, List.length_cons]

theorem adjacentlySorted_tail (fts : List FieldTypeMeta) (ds : List Bool)
    (a : HeapRow) (l : List HeapRow)
    (h : adjacentlySorted fts ds (a :: l) = true) :
    adjacentlySorted fts ds l = true := by
  cases l with
  | nil => rfl
  | cons b bs =>
    simp only [adjacentlySorted, Bool.and_eq_true] at h
    exact h.2

theorem adjacentlySorted_cons_insert (fts : List FieldTypeMeta) (ds : List Bool) :
    ∀ (ys : List HeapRow) (y x : HeapRow), keyLe fts ds y.key x.key = true →
      adjacentlySorted fts ds (y :: ys) = true →
      adjacentlySorted fts ds (y :: insertSorted fts ds x ys) = true := by
  intro ys
  induction ys with
  | nil =>
    intro y x hyx _
    simp [insertSorted, adjacentlySorted, hyx]
  | cons z zs ih =>
    intro y x hyx hadj
    simp only [adjacentlySorted, Bool.and_eq_true] at hadj
    by_cases hc : keyLe fts ds x.key z.key = true
    · simp only [insertSorted, if_pos hc]
      simp only [adjacentlySorted, Bool.and_eq_true]
      exact ⟨hyx, hc, hadj.2⟩
    · have hzx : keyLe fts ds z.key x.key = true := by
        rcases keyLe_total fts ds x.key z.key with h | h
        · exact absurd h hc
        · exact h
      simp only [insertSorted, if_neg hc]
      simp only [adjacentlySorted, Bool.and_eq_true]
      exact ⟨hadj.1, ih z x hzx hadj.2⟩

theorem adjacentlySorted_insert (fts : List FieldTypeMeta) (ds : List Bool)
    (x : HeapRow) (l : List HeapRow)
    (h : adjacentlySorted fts ds l = true) :
    adjacentlySorted fts ds (insertSorted fts ds x l) = true := by
  cases l with
  | nil => rfl
  | cons y ys =>
    by_cases hc : keyLe fts ds x.key y.key = true
    · simp only [insertSorted, if_pos hc]
      simp only [adjacentlySorted, Bool.and_eq_true]
      exact ⟨hc, h⟩
    · have hyx : keyLe fts ds y.key x.key = true := by
        rcases keyLe_total fts ds x.key y.key with h2 | h2
        · exact absurd h2 hc
        · exact h2
      simp only [insertSorted, if_neg hc]
      exact adjacentlySorted_cons_insert fts ds ys y x hyx h

theorem adjacentlySorted_take_all (fts : List FieldTypeMeta) (ds : List Bool)
    (heap : List HeapRow) :
    adjacentlySorted fts ds (take_all fts ds heap) = true := by
  induction heap with
  | nil => rfl
  | cons r rest ih =>
    simp only [take_all, List.foldr_cons] at *
    exact adjacentlySorted_insert fts ds r _ ih

theorem adj_head_all (fts : List FieldTypeMeta) (ds : List Bool) {P : HeapRow → Prop}
    (hstep : ∀ a b : HeapRow, keyLe fts ds a.key b.key = true → P a → P b) :
    ∀ (l : List HeapRow) (a : HeapRow), adjacentlySorted fts ds (a :: l) = true →
      P a → ∀ k, k < l.length → P (l.getD k default) := by
  intro l
  induction l with
  | nil =>
    intro a _ _ k hk
    exact absurd hk (by simp)
  | cons b bs ih =>
    intro a hadj hPa k hk
    simp only [adjacentlySorted, Bool.and_eq_true] at hadj
    have hPb : P b := hstep a b hadj.1 hPa
    cases k with
    | zero => simpa using hPb
    | succ k =>
      have hadj2 : adjacentlySorted fts ds (b :: bs) = true := hadj.2
      exact ih b hadj2 hPb k (by simpa using hk)

theorem adj_getD (fts : List FieldTypeMeta) (ds : List Bool) {P : HeapRow → Prop}
    (hstep : ∀ a b : HeapRow, keyLe fts ds a.key b.key = true → P a → P b) :
    ∀ (l : List HeapRow), adjacentlySorted fts ds l = true →
      ∀ i j, i < j → j < l.length → P (l.getD i default) → P (l.getD j default) := by
  intro l
  induction l with
  | nil =>
    intro _ i j _ hj _
    exact absurd hj (by simp)
  | cons a as ih =>
    intro hadj i j hij hj hPi
    cases j with
    | zero => omega
    | succ j =>
      cases i with
      | zero =>
        simp only [List.getD_cons_zero] at hPi
        simp only [List.getD_cons_succ]
        exact adj_head_all fts ds hstep as a hadj hPi j (by simpa using hj)
      | succ i =>
        simp only [List.getD_cons_succ] at hPi ⊢
        exact ih (adjacentlySorted_tail fts ds a as hadj) i j (by omega)
          (by simpa using hj) hPi

theorem cmpValue_nonnull_null (ft : FieldTypeMeta) (v : SortVal)
    (hv : v ≠ .vnull) : cmpValue ft v .vnull = .gt := by
  cases v with
  | vnull => exact absurd rfl hv
  | vint a => rfl
  | vreal a => rfl
  | vbytes a => rfl

theorem cmpValue_null_nonnull (ft : FieldTypeMeta) (v : SortVal)
    (hv : v ≠ .vnull) : cmpValue ft .vnull v = .lt := by
  cases v with
  | vnull => exact absurd rfl hv
  | vint a => rfl
  | vreal a => rfl
  | vbytes a => rfl

theorem keyLe_asc_step (ft : FieldTypeMeta) (a b : HeapRow)
    (h : keyLe [ft] [false] a.key b.key = true) :
    isNullKey a = false → isNullKey b = false := by
  intro ha
  by_contra hb
  rw [Bool.not_eq_false] at hb
  have hbv : b.key.headD .vnull = .vnull := by
    revert hb
    unfold isNullKey
    cases b.key.headD .vnull <;> simp
  have hav : a.key.headD .vnull ≠ .vnull := by
    revert ha
    unfold isNullKey
    cases a.key.headD .vnull <;> simp
  have hg : cmp_sort_key [ft] [false] a.key b.key = .gt := by
    simp only [cmp_sort_key]
    rw [hbv, cmpValue_nonnull_null ft _ hav]
    rfl
  rw [keyLe, hg] at h
  exact absurd h (by decide)

theorem keyLe_desc_step (ft : FieldTypeMeta) (a b : HeapRow)
    (h : keyLe [ft] [true] a.key b.key = true) :
    isNullKey a = true → isNullKey b = true := by
  intro ha
  by_contra hb
  rw [Bool.not_eq_true] at hb
  have hav : a.key.headD .vnull = .vnull := by
    revert ha
    unfold isNullKey
    cases a.key.headD .vnull <;> simp
  have hbv : b.key.headD .vnull ≠ .vnull := by
    revert hb
    unfold isNullKey
    cases b.key.headD .vnull <;> simp
  have hg : cmp_sort_key [ft] [true] a.key b.key = .gt := by
    simp only [cmp_sort_key]
    rw [hav, cmpValue_null_nonnull ft _ hbv]
    rfl
  rw [keyLe, hg] at h
  exact absurd h (by decide)

theorem exceptMap_ok {α β : Type} (f : α → Except Nat β) (l : List α)
    (h : ∀ a ∈ l, ∃ b, f a = .ok b) :
    ∃ bs, exceptMap f l = .ok bs ∧ bs.length = l.length := by
  induction l with
  | nil => exact ⟨[], rfl, rfl⟩
  | cons a as ih =>
    obtain ⟨b, hb⟩ := h a (by simp)
    obtain ⟨bs, hbs, hlen⟩ := ih (fun x hx => h x (by simp [hx]))
    refine ⟨b :: bs, ?_, by simp [hlen]⟩
    simp only [exceptMap, hb, hbs]

theorem process_batch_input_ok (fts : List FieldTypeMeta) (ds : List Bool)
    (exprs : List OrderExpr) (n : Nat) (heap : List HeapRow)
    (cols : LazyBatchColumnVec) (lrows : List Nat) (hEval : EvalOk exprs) :
    ∃ heap', process_batch_input fts ds exprs n heap cols lrows = .ok heap' ∧
      (heap.length ≤ n → heap'.length = min n (heap.length + lrows.length)) := by
  obtain ⟨kc, hkc⟩ : ∃ kc, evalOrderColumns exprs cols lrows = .ok kc := by
    obtain ⟨kc, hkc, _⟩ :=
      exceptMap_ok (fun ex => exceptMap (fun li => ex (rowAt cols li)) lrows) exprs
        (fun ex hex => by
          obtain ⟨vs, hvs, _⟩ := exceptMap_ok (fun li => ex (rowAt cols li)) lrows
            (fun li _ => hEval ex hex (rowAt cols li))
          exact ⟨vs, hvs⟩)
    exact ⟨kc, hkc⟩
  refine ⟨((List.range lrows.length).map (fun i =>
      ({ data := rowAt cols (lrows.getD i 0),
         key := kc.map (fun c => c.getD i .vnull) } : HeapRow))).foldl
        (add_row fts ds n) heap, ?_, ?_⟩
  · simp only [process_batch_input, hkc]
  · intro hle
    rw [length_foldl_add_row fts ds n _ heap hle]
    simp

theorem rows_len_assembleColumns (schema_len : Nat) (rows : List HeapRow)
    (h : 0 < schema_len) :
    (assembleColumns schema_len rows).rows_len = rows.length := by
  obtain ⟨k, rfl⟩ : ∃ k, schema_len = k + 1 := ⟨schema_len - 1, by omega⟩
  simp [assembleColumns, LazyBatchColumnVec.rows_len, List.range_succ_eq_map]

theorem handle_error_src (e : BatchTopNExecutor) (err : Nat)
    (hdr : (pullSrc e.src BATCH_MAX_SIZE).1.is_drained = .error err) :
    handle_next_batch e
      = ⟨.error err, e.heap, (pullSrc e.src BATCH_MAX_SIZE).2,
         (pullSrc e.src BATCH_MAX_SIZE).1.warnings⟩ := by
  unfold handle_next_batch
  rw [hdr]

theorem handle_error_eval (e : BatchTopNExecutor) (err : Nat) (d : BatchExecIsDrain)
    (hdr : (pullSrc e.src BATCH_MAX_SIZE).1.is_drained = .ok d)
    (hne : (pullSrc e.src BATCH_MAX_SIZE).1.logical_rows.isEmpty = false)
    (hproc : process_batch_input e.order_exprs_field_type e.order_is_desc
        e.order_exprs e.n e.heap (pullSrc e.src BATCH_MAX_SIZE).1.physical_columns
        (pullSrc e.src BATCH_MAX_SIZE).1.logical_rows = .error err) :
    handle_next_batch e
      = ⟨.error err, e.heap, (pullSrc e.src BATCH_MAX_SIZE).2,
         (pullSrc e.src BATCH_MAX_SIZE).1.warnings⟩ := by
  unfold handle_next_batch
  rw [hdr, if_neg (by simp [hne]), hproc]

theorem handle_ok (e : BatchTopNExecutor) (d : BatchExecIsDrain) (heap' : List HeapRow)
    (hdr : (pullSrc e.src BATCH_MAX_SIZE).1.is_drained = .ok d)
    (hproc : (if (pullSrc e.src BATCH_MAX_SIZE).1.logical_rows.isEmpty
              then Except.ok e.heap
              else process_batch_input e.order_exprs_field_type e.order_is_desc
                     e.order_exprs e.n e.heap
                     (pullSrc e.src BATCH_MAX_SIZE).1.physical_columns
                     (pullSrc e.src BATCH_MAX_SIZE).1.logical_rows) = .ok heap') :
    handle_next_batch e
      = (if d.stop then
           ⟨.ok (some (take_all e.order_exprs_field_type e.order_is_desc heap')),
            [], (pullSrc e.src BATCH_MAX_SIZE).2,
            (pullSrc e.src BATCH_MAX_SIZE).1.warnings⟩
         else
           ⟨.ok none, heap', (pullSrc e.src BATCH_MAX_SIZE).2,
            (pullSrc e.src BATCH_MAX_SIZE).1.warnings⟩) := by
  unfold handle_next_batch
  rw [hdr, hproc]

theorem next_batch_of_handle (e : BatchTopNExecutor) (hint : Nat)
    (hn : e.n ≠ 0) (hb : pagingBypass e = false) :
    next_batch e hint
      = (match (handle_next_batch e).out with
         | .error err =>
           ({ physical_columns := .empty, logical_rows := [],
              warnings := (handle_next_batch e).warnings, is_drained := .error err },
            { e with
               is_ended := true
               heap := (handle_next_batch e).heap
               src := (handle_next_batch e).src })
         | .ok (some sorted_rows) =>
           ({ physical_columns := assembleColumns e.schema_len sorted_rows,
              logical_rows :=
                List.range (assembleColumns e.schema_len sorted_rows).rows_len,
              warnings := (handle_next_batch e).warnings, is_drained := .ok .Drain },
            { e with
               is_ended := true
               heap := (handle_next_batch e).heap
               src := (handle_next_batch e).src })
         | .ok none =>
           ({ physical_columns := .empty, logical_rows := [],
              warnings := (handle_next_batch e).warnings, is_drained := .ok .Remain },
            { e with
               heap := (handle_next_batch e).heap
               src := (handle_next_batch e).src })) := by
  unfold next_batch
  rw [if_neg hn, if_neg (by simp [hb])]

theorem handle_error_proc (e : BatchTopNExecutor) (err : Nat) (d : BatchExecIsDrain)
    (hdr : (pullSrc e.src BATCH_MAX_SIZE).1.is_drained = .ok d)
    (hproc : (if (pullSrc e.src BATCH_MAX_SIZE).1.logical_rows.isEmpty
              then Except.ok e.heap
              else process_batch_input e.order_exprs_field_type e.order_is_desc
                     e.order_exprs e.n e.heap
                     (pullSrc e.src BATCH_MAX_SIZE).1.physical_columns
                     (pullSrc e.src BATCH_MAX_SIZE).1.logical_rows) = .error err) :
    handle_next_batch e
      = ⟨.error err, e.heap, (pullSrc e.src BATCH_MAX_SIZE).2,
         (pullSrc e.src BATCH_MAX_SIZE).1.warnings⟩ := by
  unfold handle_next_batch
  rw [hdr, hproc]

theorem handle_out_some (e : BatchTopNExecutor) (rows : List HeapRow)
    (h : (handle_next_batch e).out = .ok (some rows)) :
    ∃ heap', rows = take_all e.order_exprs_field_type e.order_is_desc heap' := by
  cases hd : (pullSrc e.src BATCH_MAX_SIZE).1.is_drained with
  | error err =>
    rw [handle_error_src e err hd] at h
    exact absurd h (by simp)
  | ok d =>
    cases hp : (if (pullSrc e.src BATCH_MAX_SIZE).1.logical_rows.isEmpty
                then Except.ok e.heap
                else process_batch_input e.order_exprs_field_type e.order_is_desc
                       e.order_exprs e.n e.heap
                       (pullSrc e.src BATCH_MAX_SIZE).1.physical_columns
                       (pullSrc e.src BATCH_MAX_SIZE).1.logical_rows) with
    | error err =>
      rw [handle_error_proc e err d hd hp] at h
      exact absurd h (by simp)
    | ok heap' =>
      rw [handle_ok e d heap' hd hp] at h
      by_cases hstop : d.stop = true
      · rw [if_pos hstop] at h
        simp at h
        exact ⟨heap', h.symm⟩
      · rw [if_neg hstop] at h
        exact absurd h (by simp)

theorem drained_output_shape (e : BatchTopNExecutor) (hint : Nat)
    (hn : e.n ≠ 0) (hb : pagingBypass e = false)
    (hdr : (next_batch e hint).1.is_drained = .ok .Drain) :
    ∃ heap',
      (next_batch e hint).1.physical_columns
        = assembleColumns e.schema_len
            (take_all e.order_exprs_field_type e.order_is_desc heap') ∧
      (next_batch e hint).1.logical_rows
        = List.range ((assembleColumns e.schema_len
            (take_all e.order_exprs_field_type e.order_is_desc heap')).rows_len) := by
  rw [next_batch_of_handle e hint hn hb] at hdr ⊢
  cases hout : (handle_next_batch e).out with
  | error err =>
    rw [hout] at hdr
    exact Except.noConfusion hdr
  | ok o =>
    cases o with
    | none =>
      rw [hout] at hdr
      exact Except.noConfusion hdr (fun h => BatchExecIsDrain.noConfusion h)
    | some rows =>
      obtain ⟨heap', hrows⟩ := handle_out_some e rows hout
      subst hrows
      exact ⟨heap', rfl, rfl⟩

theorem next_batch_remain (e : BatchTopNExecutor) (hint : Nat) (heap' : List HeapRow)
    (hn : e.n ≠ 0) (hb : pagingBypass e = false)
    (hdr : (pullSrc e.src BATCH_MAX_SIZE).1.is_drained = .ok .Remain)
    (hproc : (if (pullSrc e.src BATCH_MAX_SIZE).1.logical_rows.isEmpty
              then Except.ok e.heap
              else process_batch_input e.order_exprs_field_type e.order_is_desc
                     e.order_exprs e.n e.heap
                     (pullSrc e.src BATCH_MAX_SIZE).1.physical_columns
                     (pullSrc e.src BATCH_MAX_SIZE).1.logical_rows) = .ok heap') :
    next_batch e hint
      = ({ physical_columns := .empty, logical_rows := [],
           warnings := (pullSrc e.src BATCH_MAX_SIZE).1.warnings,
           is_drained := .ok .Remain },
         { e with
            heap := heap'
            src := (pullSrc e.src BATCH_MAX_SIZE).2 }) := by
  rw [next_batch_of_handle e hint hn hb, handle_ok e .Remain heap' hdr hproc]
  rfl

theorem next_batch_drain (e : BatchTopNExecutor) (hint : Nat) (heap' : List HeapRow)
    (hn : e.n ≠ 0) (hb : pagingBypass e = false)
    (hdr : (pullSrc e.src BATCH_MAX_SIZE).1.is_drained = .ok .Drain)
    (hproc : (if (pullSrc e.src BATCH_MAX_SIZE).1.logical_rows.isEmpty
              then Except.ok e.heap
              else process_batch_input e.order_exprs_field_type e.order_is_desc
                     e.order_exprs e.n e.heap
                     (pullSrc e.src BATCH_MAX_SIZE).1.physical_columns
                     (pullSrc e.src BATCH_MAX_SIZE).1.logical_rows) = .ok heap') :
    next_batch e hint
      = ({ physical_columns := assembleColumns e.schema_len
             (take_all e.order_exprs_field_type e.order_is_desc heap'),
           logical_rows := List.range ((assembleColumns e.schema_len
             (take_all e.order_exprs_field_type e.order_is_desc heap')).rows_len),
           warnings := (pullSrc e.src BATCH_MAX_SIZE).1.warnings,
           is_drained := .ok .Drain },
         { e with
            is_ended := true
            heap := []
            src := (pullSrc e.src BATCH_MAX_SIZE).2 }) := by
  rw [next_batch_of_handle e hint hn hb, handle_ok e .Drain heap' hdr hproc]
  rfl

theorem proc_if_ok (e : BatchTopNExecutor) (hEval : EvalOk e.order_exprs) :
    ∃ hA, (if (pullSrc e.src BATCH_MAX_SIZE).1.logical_rows.isEmpty
           then Except.ok e.heap
           else process_batch_input e.order_exprs_field_type e.order_is_desc
                  e.order_exprs e.n e.heap
                  (pullSrc e.src BATCH_MAX_SIZE).1.physical_columns
                  (pullSrc e.src BATCH_MAX_SIZE).1.logical_rows) = Except.ok hA
      ∧ (e.heap.length ≤ e.n → hA.length
           = min e.n (e.heap.length
               + (pullSrc e.src BATCH_MAX_SIZE).1.logical_rows.length)) := by
  by_cases hempty : (pullSrc e.src BATCH_MAX_SIZE).1.logical_rows.isEmpty
  · refine ⟨e.heap, by rw [if_pos hempty], fun hle => ?_⟩
    have h0 : (pullSrc e.src BATCH_MAX_SIZE).1.logical_rows.length = 0 := by
      cases hl : (pullSrc e.src BATCH_MAX_SIZE).1.logical_rows with
      | nil => rfl
      | cons a l =>
        rw [hl] at hempty
        exact absurd hempty (by simp)
    rw [h0]
    omega
  · obtain ⟨heap', hp, hl⟩ := process_batch_input_ok e.order_exprs_field_type
      e.order_is_desc e.order_exprs e.n e.heap
      (pullSrc e.src BATCH_MAX_SIZE).1.physical_columns
      (pullSrc e.src BATCH_MAX_SIZE).1.logical_rows hEval
    exact ⟨heap', by rw [if_neg hempty]; exact hp, hl⟩

theorem check_all_error_iff {α : Type} (check : α → Except Nat Unit) (l : List α) :
    (∃ err, check_all check l = .error err)
      ↔ ∃ x ∈ l, ∃ err, check x = .error err := by
  induction l with
  | nil => simp [check_all]
  | cons a as ih =>
    simp only [check_all]
    cases hc : check a with
    | error e =>
      constructor
      · intro _
        exact ⟨a, by simp, e, hc⟩
      · intro _
        exact ⟨e, rfl⟩
    | ok u =>
      cases u
      constructor
      · intro h
        obtain ⟨x, hx, err, hcx⟩ := ih.mp h
        exact ⟨x, by simp [hx], err, hcx⟩
      · intro h
        obtain ⟨x, hx, err, hcx⟩ := h
        rcases List.mem_cons.mp hx with h1 | h1
        · subst h1
          rw [hc] at hcx
          exact absurd hcx (by simp)
        · exact ih.mpr ⟨x, h1, err, hcx⟩

theorem evalOk_exprCol0 : EvalOk [exprCol0] := by
  intro ex hex row
  rw [List.mem_singleton] at hex
  subst hex
  exact ⟨row.headD .vnull, rfl⟩

theorem runExec_bypass (hint : Nat) :
    ∀ (fuel : Nat) (e : BatchTopNExecutor) (p : Nat),
      e.paging_size = some p → p < e.n → e.is_ended = false →
      runExec fuel e hint = runSrc fuel e.src hint := by
  intro fuel
  induction fuel with
  | zero => intro e p _ _ _; rfl
  | succ fuel ih =>
    intro e p hp hlt hee
    have hn0 : e.n ≠ 0 := by omega
    have hbp : pagingBypass e = true := by
      simp [pagingBypass, hp, hlt]
    have hstep : next_batch e hint
        = ((pullSrc e.src hint).1, { e with src := (pullSrc e.src hint).2 }) := by
      unfold next_batch
      rw [if_neg hn0, if_pos hbp]
    simp only [runExec, runSrc, hee, if_false, Bool.false_eq_true, hstep]
    by_cases hs : stops (pullSrc e.src hint).1 = true
    · rw [if_pos hs, if_pos hs]
    · rw [if_neg hs, if_neg hs]
      have h2 := ih { e with src := (pullSrc e.src hint).2 } p hp hlt hee
      rw [hee] at h2
      rw [h2]

theorem runExec_succ (fuel : Nat) (e : BatchTopNExecutor) (hint : Nat) :
    runExec (fuel + 1) e hint
      = if e.is_ended then []
        else if stops (next_batch e hint).1 then [(next_batch e hint).1]
        else (next_batch e hint).1 :: runExec fuel (next_batch e hint).2 hint := rfl

theorem runExec_count_aux (hint : Nat) :
    ∀ (rs : List BatchExecuteResult) (e : BatchTopNExecutor),
      e.n ≠ 0 → 0 < e.schema_len → e.is_ended = false →
      pagingBypass e = false → e.src = constSrc rs → EvalOk e.order_exprs →
      DrainShaped rs → e.heap.length ≤ e.n →
      totalLogicalRows (runExec rs.length e hint)
        = min e.n (e.heap.length + totalLogicalRows rs) := by
  intro rs
  induction rs with
  | nil =>
    intro e _ _ _ _ _ _ hshape _
    exact absurd hshape (by simp [DrainShaped])
  | cons r rest ih =>
    intro e hn hslen hee hb hesrc hEval hshape hlen
    have hpull1 : (pullSrc e.src BATCH_MAX_SIZE).1 = r := by rw [hesrc]; rfl
    have hpull2 : (pullSrc e.src BATCH_MAX_SIZE).2 = constSrc rest := by rw [hesrc]; rfl
    obtain ⟨hA, hproc2, hAlen0⟩ := proc_if_ok e hEval
    have hAlen : hA.length = min e.n (e.heap.length + r.logical_rows.length) := by
      rw [hAlen0 hlen, hpull1]
    have hAle : hA.length ≤ e.n := by omega
    cases rest with
    | nil =>
      have hdr : (pullSrc e.src BATCH_MAX_SIZE).1.is_drained = .ok .Drain := by
        rw [hpull1]
        exact hshape
      have hstep := next_batch_drain e hint hA hn hb hdr hproc2
      have hstops : stops (next_batch e hint).1 = true := by
        rw [hstep]
        rfl
      have hrun : runExec (r :: ([] : List BatchExecuteResult)).length e hint
          = [(next_batch e hint).1] := by
        rw [show (r :: ([] : List BatchExecuteResult)).length = 0 + 1 from rfl,
          runExec_succ, if_neg (by simp [hee]), if_pos hstops]
      rw [hrun, hstep]
      simp only [totalLogicalRows, List.map_cons, List.map_nil, List.sum_cons,
        List.sum_nil]
      rw [List.length_range, rows_len_assembleColumns _ _ hslen, length_take_all,
        hAlen]
      omega
    | cons s rest' =>
      have hdr : (pullSrc e.src BATCH_MAX_SIZE).1.is_drained = .ok .Remain := by
        rw [hpull1]
        exact hshape.1
      have hstep := next_batch_remain e hint hA hn hb hdr hproc2
      have hstops : stops (next_batch e hint).1 = false := by
        rw [hstep]
        rfl
      have hrun : runExec (r :: s :: rest').length e hint
          = (next_batch e hint).1
              :: runExec (s :: rest').length (next_batch e hint).2 hint := by
        rw [show (r :: s :: rest').length = (s :: rest').length + 1 from rfl,
          runExec_succ, if_neg (by simp [hee]), if_neg (by simp [hstops])]
      rw [hrun, hstep]
      have hrec := ih { e with heap := hA, src := (pullSrc e.src BATCH_MAX_SIZE).2 }
        hn hslen hee hb (by rw [hpull2]) hEval hshape.2 hAle
      simp only [totalLogicalRows, List.map_cons, List.sum_cons] at hrec ⊢
      rw [hrec]
      simp only [List.length_nil]
      omega

/-- Claim C1: for every input stream (each pull succeeding, every batch before
the last reporting Remain, the last reporting Drain) and every limit N ≥ 0,
with no paging configured, the total number of rows output by
`BatchTopNExecutor::next_batch` across all calls equals min(N, total number of
logical input rows); in particular for N = 0 the output row count is 0. -/
theorem topn_c1_output_count (fts : List FieldTypeMeta) (ds : List Bool)
    (exprs : List OrderExpr) (n slen hint : Nat) (rs : List BatchExecuteResult)
    (hslen : 0 < slen) (hEval : EvalOk exprs) (hshape : DrainShaped rs) :
    totalLogicalRows (runExec rs.length
      { heap := [], order_exprs := exprs, order_exprs_field_type := fts,
        order_is_desc := ds, n := n, paging_size := none, schema_len := slen,
        src := constSrc rs, is_ended := false } hint)
      = min n (totalLogicalRows rs) := by
  by_cases hn : n = 0
  · subst hn
    obtain ⟨k, hk⟩ : ∃ k, rs.length = k + 1 := by
      cases rs with
      | nil => exact absurd hshape (by simp [DrainShaped])
      | cons a l => exact ⟨l.length, rfl⟩
    rw [hk]
    have hL : totalLogicalRows (runExec (k + 1)
        { heap := [], order_exprs := exprs, order_exprs_field_type := fts,
          order_is_desc := ds, n := 0, paging_size := none, schema_len := slen,
          src := constSrc rs, is_ended := false } hint) = 0 := rfl
    rw [hL]
    omega
  · have h := runExec_count_aux hint rs
      { heap := [], order_exprs := exprs, order_exprs_field_type := fts,
        order_is_desc := ds, n := n, paging_size := none, schema_len := slen,
        src := constSrc rs, is_ended := false }
      hn hslen rfl rfl rfl hEval hshape (Nat.zero_le n)
    simpa using h

/-- Witness for C1 at a concrete one-batch stream with N = 1. -/
theorem topn_c1_output_count_witness :
    ((0 : Nat) < 1 ∧ EvalOk [exprCol0] ∧ DrainShaped [wBatchDrain]) ∧
    totalLogicalRows (runExec [wBatchDrain].length
      { heap := [], order_exprs := [exprCol0], order_exprs_field_type := [⟨false⟩],
        order_is_desc := [false], n := 1, paging_size := none, schema_len := 1,
        src := constSrc [wBatchDrain], is_ended := false } 1)
      = min 1 (totalLogicalRows [wBatchDrain]) :=
  ⟨⟨by decide, evalOk_exprCol0, rfl⟩,
   topn_c1_output_count [⟨false⟩] [false] [exprCol0] 1 1 1 [wBatchDrain]
     (by decide) evalOk_exprCol0 rfl⟩

/-- Claim C2: the rows of the final drained output batch are totally ordered
by the declared multi-key, direction-aware comparator: no adjacent output pair
(a, b) has a sorting strictly after b. -/
theorem topn_c2_output_sorted (e : BatchTopNExecutor) (hint : Nat)
    (hn : e.n ≠ 0) (hb : pagingBypass e = false)
    (hdr : (next_batch e hint).1.is_drained = .ok .Drain) :
    ∃ sorted : List HeapRow,
      (next_batch e hint).1.physical_columns = assembleColumns e.schema_len sorted
      ∧ adjacentlySorted e.order_exprs_field_type e.order_is_desc sorted = true := by
  obtain ⟨heap', h1, _⟩ := drained_output_shape e hint hn hb hdr
  exact ⟨take_all e.order_exprs_field_type e.order_is_desc heap', h1,
    adjacentlySorted_take_all _ _ _⟩

/-- Witness for C2 at a concrete drained run. -/
theorem topn_c2_output_sorted_witness :
    (wExec.n ≠ 0 ∧ pagingBypass wExec = false
      ∧ (next_batch wExec 1).1.is_drained = .ok .Drain) ∧
    (∃ sorted : List HeapRow,
      (next_batch wExec 1).1.physical_columns = assembleColumns wExec.schema_len sorted
      ∧ adjacentlySorted wExec.order_exprs_field_type wExec.order_is_desc sorted
          = true) :=
  ⟨⟨by decide, by decide, by decide⟩,
   topn_c2_output_sorted wExec 1 (by decide) (by decide) (by decide)⟩

/-- Claim C3: a NULL key value compares as the minimum regardless of the
descending flag; hence with a single ascending key every NULL-key row of the
drained output precedes every non-NULL-key row, and with a single descending
key every NULL-key row follows every non-NULL-key row. -/
theorem topn_c3_null_ordering :
    (∀ (ft : FieldTypeMeta) (v : SortVal), v ≠ .vnull →
        cmpValue ft .vnull v = .lt ∧ cmpValue ft v .vnull = .gt)
    ∧ (∀ (e : BatchTopNExecutor) (hint : Nat) (ft : FieldTypeMeta),
        e.order_exprs_field_type = [ft] → e.order_is_desc = [false] →
        e.n ≠ 0 → pagingBypass e = false →
        (next_batch e hint).1.is_drained = .ok .Drain →
        ∃ sorted : List HeapRow,
          (next_batch e hint).1.physical_columns = assembleColumns e.schema_len sorted
          ∧ ∀ i j, i < j → j < sorted.length →
              isNullKey (sorted.getD j default) = true →
              isNullKey (sorted.getD i default) = true)
    ∧ (∀ (e : BatchTopNExecutor) (hint : Nat) (ft : FieldTypeMeta),
        e.order_exprs_field_type = [ft] → e.order_is_desc = [true] →
        e.n ≠ 0 → pagingBypass e = false →
        (next_batch e hint).1.is_drained = .ok .Drain →
        ∃ sorted : List HeapRow,
          (next_batch e hint).1.physical_columns = assembleColumns e.schema_len sorted
          ∧ ∀ i j, i < j → j < sorted.length →
              isNullKey (sorted.getD i default) = true →
              isNullKey (sorted.getD j default) = true) := by
  refine ⟨fun ft v hv => ⟨cmpValue_null_nonnull ft v hv, cmpValue_nonnull_null ft v hv⟩,
    ?_, ?_⟩
  · intro e hint ft hft hds hn hb hdr
    obtain ⟨heap', h1, _⟩ := drained_output_shape e hint hn hb hdr
    refine ⟨take_all e.order_exprs_field_type e.order_is_desc heap', h1, ?_⟩
    intro i j hij hj hnull
    by_contra hi
    rw [Bool.not_eq_true] at hi
    have hstep : ∀ a b : HeapRow,
        keyLe e.order_exprs_field_type e.order_is_desc a.key b.key = true →
        isNullKey a = false → isNullKey b = false := by
      intro a b hle ha
      rw [hft, hds] at hle
      exact keyLe_asc_step ft a b hle ha
    have hmono := adj_getD e.order_exprs_field_type e.order_is_desc hstep _
      (adjacentlySorted_take_all e.order_exprs_field_type e.order_is_desc heap')
      i j hij hj hi
    rw [hmono] at hnull
    exact absurd hnull (by decide)
  · intro e hint ft hft hds hn hb hdr
    obtain ⟨heap', h1, _⟩ := drained_output_shape e hint hn hb hdr
    refine ⟨take_all e.order_exprs_field_type e.order_is_desc heap', h1, ?_⟩
    intro i j hij hj hnull
    have hstep : ∀ a b : HeapRow,
        keyLe e.order_exprs_field_type e.order_is_desc a.key b.key = true →
        isNullKey a = true → isNullKey b = true := by
      intro a b hle ha
      rw [hft, hds] at hle
      exact keyLe_desc_step ft a b hle ha
    exact adj_getD e.order_exprs_field_type e.order_is_desc hstep _
      (adjacentlySorted_take_all e.order_exprs_field_type e.order_is_desc heap')
      i j hij hj hnull

/-- Witness for C3: the ascending part applied to a concrete run containing a
NULL key value. -/
theorem topn_c3_null_ordering_witness :
    (wExecNull.order_exprs_field_type = [⟨false⟩]
      ∧ wExecNull.order_is_desc = [false]
      ∧ wExecNull.n ≠ 0 ∧ pagingBypass wExecNull = false
      ∧ (next_batch wExecNull 1).1.is_drained = .ok .Drain) ∧
    (∃ sorted : List HeapRow,
      (next_batch wExecNull 1).1.physical_columns
          = assembleColumns wExecNull.schema_len sorted
      ∧ ∀ i j, i < j → j < sorted.length →
          isNullKey (sorted.getD j default) = true →
          isNullKey (sorted.getD i default) = true) :=
  ⟨⟨rfl, rfl, by decide, by decide, by decide⟩,
   topn_c3_null_ordering.2.1 wExecNull 1 ⟨false⟩ rfl rfl (by decide) (by decide)
     (by decide)⟩

/-- Claim C4: an unsigned-flagged key compares non-NULL integers by their
64-bit patterns read as unsigned; in particular the pattern of
18446744073709551615 (signed value -1) sorts above the pattern of
9223372036854775807 (the signed maximum), and a concrete ascending unsigned
run orders the former after the latter. -/
theorem topn_c4_unsigned_compare :
    (∀ a b : Nat, cmpValue ⟨true⟩ (.vint a) (.vint b) = cmpNat a b)
    ∧ toSigned 18446744073709551615 < toSigned 9223372036854775807
    ∧ cmpValue ⟨true⟩ (.vint 18446744073709551615) (.vint 9223372036854775807)
        = .gt
    ∧ (next_batch unsignedExec 1).1.physical_columns.columns
        = [[.vint 9223372036854775807, .vint 18446744073709551615]] :=
  ⟨fun a b => rfl, by decide, by decide, by decide⟩

/-- Claim C5: when a paging size is configured and N strictly exceeds it,
every `next_batch` call is forwarded verbatim to the source with the caller's
scan-rows hint and its result returned unchanged, so the whole output batch
sequence is identical to driving the bare source. -/
theorem topn_c5_paging_bypass (e : BatchTopNExecutor) (hint : Nat) (p : Nat)
    (hp : e.paging_size = some p) (hlt : p < e.n) (hee : e.is_ended = false) :
    next_batch e hint
        = ((pullSrc e.src hint).1, { e with src := (pullSrc e.src hint).2 })
      ∧ ∀ fuel, runExec fuel e hint = runSrc fuel e.src hint := by
  have hn0 : e.n ≠ 0 := by omega
  have hbp : pagingBypass e = true := by
    simp [pagingBypass, hp, hlt]
  constructor
  · unfold next_batch
    rw [if_neg hn0, if_pos hbp]
  · intro fuel
    exact runExec_bypass hint fuel e p hp hlt hee

/-- Witness for C5 at paging size 1 < N = 2. -/
theorem topn_c5_paging_bypass_witness :
    ({ wExec with paging_size := some 1 }.paging_size = some 1
      ∧ 1 < { wExec with paging_size := some 1 }.n
      ∧ { wExec with paging_size := some 1 }.is_ended = false) ∧
    (next_batch { wExec with paging_size := some 1 } 1
        = ((pullSrc { wExec with paging_size := some 1 }.src 1).1,
           { { wExec with paging_size := some 1 } with
              src := (pullSrc { wExec with paging_size := some 1 }.src 1).2 })
      ∧ ∀ fuel, runExec fuel { wExec with paging_size := some 1 } 1
          = runSrc fuel { wExec with paging_size := some 1 }.src 1) :=
  ⟨⟨rfl, by decide, rfl⟩,
   topn_c5_paging_bypass { wExec with paging_size := some 1 } 1 1 rfl (by decide) rfl⟩

/-- Claim C6: with N = 0 the first `next_batch` call transitions the executor
to `Ended` and returns an empty drained result; the source collaborator is
never pulled and its state is untouched. -/
theorem topn_c6_zero_limit (e : BatchTopNExecutor) (hint : Nat) (hn : e.n = 0) :
    next_batch e hint
        = ({ physical_columns := .empty, logical_rows := [], warnings := [],
             is_drained := .ok .Drain }, { e with is_ended := true })
      ∧ (next_batch e hint).2.src = e.src
      ∧ (next_batch e hint).2.is_ended = true := by
  have h : next_batch e hint
      = ({ physical_columns := .empty, logical_rows := [], warnings := [],
           is_drained := .ok .Drain }, { e with is_ended := true }) := by
    unfold next_batch
    rw [if_pos hn]
  refine ⟨h, ?_, ?_⟩
  · rw [h]
  · rw [h]

/-- Witness for C6 at a concrete executor with N = 0. -/
theorem topn_c6_zero_limit_witness :
    ({ wExec with n := 0 }.n = 0) ∧
    (next_batch { wExec with n := 0 } 1
        = ({ physical_columns := .empty, logical_rows := [], warnings := [],
             is_drained := .ok .Drain }, { { wExec with n := 0 } with is_ended := true })
      ∧ (next_batch { wExec with n := 0 } 1).2.src = { wExec with n := 0 }.src
      ∧ (next_batch { wExec with n := 0 } 1).2.is_ended = true) :=
  ⟨rfl, topn_c6_zero_limit { wExec with n := 0 } 1 rfl⟩

/-- Claim C7: with N > 0 and no paging bypass, if the source's drain status
carries an error or evaluating the ORDER BY expressions over the pulled batch
fails, the call returns empty physical columns and empty logical rows with
that same error as its drain status, and the executor transitions to Ended. -/
theorem topn_c7_error_propagation (e : BatchTopNExecutor) (hint : Nat) (err : Nat)
    (hn : e.n ≠ 0) (hb : pagingBypass e = false)
    (herr : (pullSrc e.src BATCH_MAX_SIZE).1.is_drained = .error err
      ∨ ∃ d, (pullSrc e.src BATCH_MAX_SIZE).1.is_drained = .ok d
          ∧ (pullSrc e.src BATCH_MAX_SIZE).1.logical_rows.isEmpty = false
          ∧ process_batch_input e.order_exprs_field_type e.order_is_desc
              e.order_exprs e.n e.heap
              (pullSrc e.src BATCH_MAX_SIZE).1.physical_columns
              (pullSrc e.src BATCH_MAX_SIZE).1.logical_rows = .error err) :
    (next_batch e hint).1.physical_columns = .empty
      ∧ (next_batch e hint).1.logical_rows = []
      ∧ (next_batch e hint).1.is_drained = .error err
      ∧ (next_batch e hint).2.is_ended = true := by
  have hh : handle_next_batch e
      = ⟨.error err, e.heap, (pullSrc e.src BATCH_MAX_SIZE).2,
         (pullSrc e.src BATCH_MAX_SIZE).1.warnings⟩ := by
    rcases herr with h | ⟨d, hdr, hne, hproc⟩
    · exact handle_error_src e err h
    · exact handle_error_eval e err d hdr hne hproc
  rw [next_batch_of_handle e hint hn hb, hh]
  exact ⟨rfl, rfl, rfl, rfl⟩

/-- Witness for C7 at a concrete source whose drain status carries error 42. -/
theorem topn_c7_error_propagation_witness :
    ({ wExec with src := constSrc [wBatchErr] }.n ≠ 0
      ∧ pagingBypass { wExec with src := constSrc [wBatchErr] } = false
      ∧ (pullSrc { wExec with src := constSrc [wBatchErr] }.src
           BATCH_MAX_SIZE).1.is_drained = .error 42) ∧
    ((next_batch { wExec with src := constSrc [wBatchErr] } 1).1.physical_columns
        = .empty
      ∧ (next_batch { wExec with src := constSrc [wBatchErr] } 1).1.logical_rows = []
      ∧ (next_batch { wExec with src := constSrc [wBatchErr] } 1).1.is_drained
          = .error 42
      ∧ (next_batch { wExec with src := constSrc [wBatchErr] } 1).2.is_ended
          = true) :=
  ⟨⟨by decide, by decide, by decide⟩,
   topn_c7_error_propagation { wExec with src := constSrc [wBatchErr] } 1 42
     (by decide) (by decide) (Or.inl (by decide))⟩

/-- Claim C8: `check_supported` returns an error iff the descriptor's ORDER BY
list is empty or some ORDER BY expression tree fails the batch expression
builder's check; otherwise it returns Ok. -/
theorem topn_c8_check_supported {α : Type} (check : α → Except Nat Unit)
    (order_by : List α) :
    (∃ err, check_supported check order_by = .error err)
      ↔ (order_by = [] ∨ ∃ x ∈ order_by, ∃ err, check x = .error err) := by
  by_cases hemp : order_by.isEmpty
  · have hnil : order_by = [] := by simpa using hemp
    subst hnil
    simp [check_supported]
  · rw [check_supported, if_neg hemp, check_all_error_iff]
    constructor
    · intro h
      exact Or.inr h
    · intro h
      rcases h with h | h
      · subst h
        exact absurd rfl hemp
      · exact h

/-- Claim C9: with N > 0 and no paging bypass, a successful `Remain` answer
from the source yields a call result with zero rows (empty physical columns
and logical rows) and `Remain` status: no output row is produced before the
source reports drained. -/
theorem topn_c9_remain_empty (e : BatchTopNExecutor) (hint : Nat)
    (hn : e.n ≠ 0) (hb : pagingBypass e = false) (hEval : EvalOk e.order_exprs)
    (hdr : (pullSrc e.src BATCH_MAX_SIZE).1.is_drained = .ok .Remain) :
    (next_batch e hint).1.physical_columns = .empty
      ∧ (next_batch e hint).1.logical_rows = []
      ∧ (next_batch e hint).1.is_drained = .ok .Remain := by
  obtain ⟨hA, hproc2, _⟩ := proc_if_ok e hEval
  rw [next_batch_remain e hint hA hn hb hdr hproc2]
  exact ⟨rfl, rfl, rfl⟩

/-- Witness for C9 at a concrete `Remain` source. -/
theorem topn_c9_remain_empty_witness :
    ({ wExec with src := constSrc [wBatchRemain] }.n ≠ 0
      ∧ pagingBypass { wExec with src := constSrc [wBatchRemain] } = false
      ∧ EvalOk { wExec with src := constSrc [wBatchRemain] }.order_exprs
      ∧ (pullSrc { wExec with src := constSrc [wBatchRemain] }.src
           BATCH_MAX_SIZE).1.is_drained = .ok .Remain) ∧
    ((next_batch { wExec with src := constSrc [wBatchRemain] } 1).1.physical_columns
        = .empty
      ∧ (next_batch { wExec with src := constSrc [wBatchRemain] } 1).1.logical_rows
          = []
      ∧ (next_batch { wExec with src := constSrc [wBatchRemain] } 1).1.is_drained
          = .ok .Remain) :=
  ⟨⟨by decide, by decide, evalOk_exprCol0, by decide⟩,
   topn_c9_remain_empty { wExec with src := constSrc [wBatchRemain] } 1
     (by decide) (by decide) evalOk_exprCol0 (by decide)⟩

/-- Claim C10: on the final drained call (N > 0, no paging bypass, nonempty
schema) the returned logical rows are exactly the identity sequence over the
returned physical columns, which hold exactly the survivor row count. -/
theorem topn_c10_logical_rows_identity (e : BatchTopNExecutor) (hint : Nat)
    (hn : e.n ≠ 0) (hb : pagingBypass e = false) (hs : 0 < e.schema_len)
    (hdr : (next_batch e hint).1.is_drained = .ok .Drain) :
    ∃ sorted : List HeapRow,
      (next_batch e hint).1.physical_columns = assembleColumns e.schema_len sorted
      ∧ (next_batch e hint).1.physical_columns.rows_len = sorted.length
      ∧ (next_batch e hint).1.logical_rows
          = List.range (next_batch e hint).1.physical_columns.rows_len := by
  obtain ⟨heap', h1, h2⟩ := drained_output_shape e hint hn hb hdr
  refine ⟨take_all e.order_exprs_field_type e.order_is_desc heap', h1, ?_, ?_⟩
  · rw [h1, rows_len_assembleColumns _ _ hs]
  · rw [h2, h1]

/-- Witness for C10 at a concrete drained run. -/
theorem topn_c10_logical_rows_identity_witness :
    (wExec.n ≠ 0 ∧ pagingBypass wExec = false ∧ 0 < wExec.schema_len
      ∧ (next_batch wExec 1).1.is_drained = .ok .Drain) ∧
    (∃ sorted : List HeapRow,
      (next_batch wExec 1).1.physical_columns = assembleColumns wExec.schema_len sorted
      ∧ (next_batch wExec 1).1.physical_columns.rows_len = sorted.length
      ∧ (next_batch wExec 1).1.logical_rows
          = List.range (next_batch wExec 1).1.physical_columns.rows_len) :=
  ⟨⟨by decide, by decide, by decide, by decide⟩,
   topn_c10_logical_rows_identity wExec 1 (by decide) (by decide) (by decide)
     (by decide)⟩

end TopN
